import Mathlib

/-!
Verification of the EMOS E6016 weather-station decoder
(`src/devices/emos_e6016.c`) against its specification.

The decoder is embedded shallowly: a bit row is a byte buffer together
with its exact bit count, a bitbuffer is a list of rows, and
`emos_e6016_decode` returns the decode outcome together with the final
state of the caller's bitbuffer (the C function mutates that buffer in
place via `bitbuffer_invert`).

Helper functions of the wider repository that are not part of the given
source file (`bitbuffer_find_repeated_row`, `bitbuffer_invert`,
`add_bytes`) are modelled from the specification text, as marked on
their doc comments.

The two C `float` outputs are stored in `Reading` as the exact integers
the source computes (`temp_deci` for `temp_raw >> 4`, `dir_raw` for the
wind-direction nibble); the floating-point products `temp_c` and
`dir_deg` emitted by `data_make` are recovered exactly by
`Reading.temperature_C` and `Reading.wind_dir_deg` (both products are
exact at the magnitudes this decoder produces, so no rounding is lost).
-/

namespace EmosE6016

/-- One captured bit row: a byte buffer (`bb[row]`) together with the
exact number of bits in the row (`bits_per_row[row]`).  Bytes are `Nat`;
every read from the buffer is reduced mod 256, matching `uint8_t`
storage. -/
structure BitRow where
  bits : Nat
  bytes : List Nat
deriving DecidableEq, Repr, Inhabited

/-- A transmission: the rows of one `bitbuffer_t`. -/
abbrev Bitbuffer := List BitRow

/-- Read byte `i` of a row as a `uint8_t` value. -/
def byteVal (r : BitRow) (i : Nat) : Nat := r.bytes.getD i 0 % 256

/-- The eight bits of one byte, most-significant bit first. -/
def byteBits (x : Nat) : List Bool :=
  [x.testBit 7, x.testBit 6, x.testBit 5, x.testBit 4,
   x.testBit 3, x.testBit 2, x.testBit 1, x.testBit 0]

/-- All bits of a row, MSB-first within each byte, truncated to the
row's exact bit count. -/
def rowBits (r : BitRow) : List Bool := ((r.bytes.map byteBits).flatten).take r.bits

/-- The first `n` bits of a row. -/
def firstBits (r : BitRow) (n : Nat) : List Bool := (rowBits r).take n

/-- Rows `a` and `b` both hold at least `n` bits and agree on their
first `n` bits. -/
def rowsMatch (a b : BitRow) (n : Nat) : Bool :=
  decide (n ≤ a.bits) && decide (n ≤ b.bits) && decide (firstBits a n = firstBits b n)

/-- Number of rows of the buffer that agree with row `i` on the first
`minBits` bits. -/
def countMatches (rows : Bitbuffer) (i minBits : Nat) : Nat :=
  (rows.filter (fun q => rowsMatch (rows.getD i default) q minBits)).length

/-- Modelled from the spec: `bitbuffer_find_repeated_row` is repository
code that is not part of the given source file.  §4.1: "find a row index
whose byte content — excluding the final byte (a repeat counter that
varies per copy) — is bit-identical across at least 3 occurrences among
the rows", with "comparison performed over `total_bits - 8` bits"; it
"fails (signals no consensus) if no group of ≥3 identical rows exists"
and on success "returns the index of one representative row from the
matching group". -/
def bitbuffer_find_repeated_row (rows : Bitbuffer) (minRepeats minBits : Nat) : Option Nat :=
  (List.range rows.length).find? (fun i => decide (minRepeats ≤ countMatches rows i minBits))

/-- Bitwise complement of one `uint8_t`. -/
def invByte (x : Nat) : Nat := 255 - x % 256

/-- Invert every byte of one row. -/
def invertRow (r : BitRow) : BitRow := { r with bytes := r.bytes.map invByte }

/-- Modelled from the spec: `bitbuffer_invert` is repository code that is
not part of the given source file.  §4.3: "every bit of the Frame is
inverted (0↔1)"; §9 records that "the source reverses bit inversion on
the whole captured buffer rather than only the matched frame", so every
row of the buffer is inverted. -/
def bitbuffer_invert (rows : Bitbuffer) : Bitbuffer := rows.map invertRow

/-- Modelled from the spec: `add_bytes` is repository code that is not
part of the given source file.  §4.4: "sums the first 13 bytes with
8-bit wraparound (modulo-256 addition)"; the function returns the plain
sum of the first `num` bytes, the caller reduces it mod 256 (`& 0xff`). -/
def add_bytes (r : BitRow) (num : Nat) : Nat :=
  ((List.range num).map (byteVal r)).sum

/-- Reinterpret the low 16 bits of a value as a two's-complement
`int16_t`: the C cast in `temp_raw` (line 99). -/
def int16_of (x : Nat) : Int :=
  if x % 65536 < 32768 then ((x % 65536 : Nat) : Int) else ((x % 65536 : Nat) : Int) - 65536

/-- C arithmetic right shift of a signed int: floor division by `2 ^ n`. -/
def sar (x : Int) (n : Nat) : Int := Int.fdiv x (2 ^ n)

/-- The fields of one decoded reading, as handed to `data_make`
(lines 110–122).  `temp_deci` is the integer `temp_raw >> 4` and
`dir_raw` the wind-direction nibble; `data_make` emits
`temp_deci * 0.1` and `dir_raw * 22.5`, recovered exactly by
`Reading.temperature_C` and `Reading.wind_dir_deg`. -/
structure Reading where
  model : String
  id : Nat
  channel : Nat
  battery_ok : Bool
  temp_deci : Int
  humidity : Nat
  wind_avg_m_s : Nat
  dir_raw : Nat
  datetime_raw : Nat
  mic : String
deriving DecidableEq, Repr

/-- The temperature in °C emitted for this reading: `temp_c` of the
source, line 100 (`(temp_raw >> 4) * 0.1f`, exact at these magnitudes). -/
def Reading.temperature_C (rd : Reading) : Rat := (rd.temp_deci : Rat) * (0.1 : Rat)

/-- The wind direction in degrees emitted for this reading: `dir_deg` of
the source, line 104 (`dir_raw * 22.5f`, exact at these magnitudes). -/
def Reading.wind_dir_deg (rd : Reading) : Rat := (rd.dir_raw : Rat) * (22.5 : Rat)

/-- Field extraction, lines 91–104 of the source: `b i` is byte `i` of
the representative row after inversion. -/
def extractReading (b : Nat → Nat) : Reading :=
  let id := b 3
  let battery := (b 4 &&& 0xf0) >>> 4
  let dcf77_raw := ((b 4 &&& 0x0f) <<< 26) ||| (b 5 <<< 18) ||| (b 6 <<< 10) |||
      (b 7 <<< 2) ||| (b 8 >>> 6)
  let channel := ((b 8 >>> 4) &&& 0x3) + 1
  let temp_raw := int16_of (((b 8 &&& 0x0f) <<< 12) ||| (b 9 <<< 4))
  let humidity := b 10
  let speed_ms := b 11
  let dir_raw := (b 12 &&& 0xf0) >>> 4
  { model := "EMOS-E6016", id := id, channel := channel,
    battery_ok := battery != 0, temp_deci := sar temp_raw 4,
    humidity := humidity, wind_avg_m_s := speed_ms,
    dir_raw := dir_raw, datetime_raw := dcf77_raw, mic := "CHECKSUM" }

/-- Decode outcome: the C return values `DECODE_ABORT_EARLY`,
`DECODE_ABORT_LENGTH`, `DECODE_FAIL_MIC`, or success (return 1) carrying
the emitted reading. -/
inductive DecodeResult where
  | abortEarly
  | abortLength
  | failMic
  | ok (reading : Reading)
deriving DecidableEq, Repr

/-- The body of `emos_e6016_decode` after a representative row `r` has
been found (lines 70–126): length check, signature check on the
un-inverted wire bytes, in-place inversion of the whole buffer, checksum
check on the inverted bytes, then field extraction. -/
def decodeRow (bitbuffer : Bitbuffer) (r : Nat) : DecodeResult × Bitbuffer :=
  let row := bitbuffer.getD r default
  if row.bits ≠ 120 then (DecodeResult.abortLength, bitbuffer)
  else if byteVal row 0 ≠ 0x55 ∨ byteVal row 1 ≠ 0x5a ∨ byteVal row 2 ≠ 0x7c then
    (DecodeResult.abortEarly, bitbuffer)
  else
    let inv := bitbuffer_invert bitbuffer
    let row2 := inv.getD r default
    if add_bytes row2 13 % 256 ≠ byteVal row2 13 then (DecodeResult.failMic, inv)
    else (DecodeResult.ok (extractReading (byteVal row2)), inv)

/-- Shallow embedding of `emos_e6016_decode` (lines 60–127).  Returns
the outcome and the final contents of the caller's bitbuffer. -/
def emos_e6016_decode (bitbuffer : Bitbuffer) : DecodeResult × Bitbuffer :=
  match bitbuffer_find_repeated_row bitbuffer 3 (120 - 8) with
  | none => (DecodeResult.abortEarly, bitbuffer)
  | some r => decodeRow bitbuffer r

/-- The two's-complement value of a 12-bit field (glossary: "Sign
extension: reconstructing a negative value from a fixed-width
two's-complement bit field by propagating the top bit"). -/
def twos12 (v : Nat) : Int :=
  if v % 4096 < 2048 then ((v % 4096 : Nat) : Int) else ((v % 4096 : Nat) : Int) - 4096

/-- Spec-side field layout, written from the words of the table in §4.5:
each field as byte/nibble arithmetic on the 14-byte logical (inverted)
frame `f`, for comparison with the decoder's `extractReading`.  The
temperature row ("12 bits, left-justified into a 16-bit signed integer
then arithmetic-shifted right by 4") is the two's-complement value of
the 12-bit field, `twos12`. -/
def layoutReading (f : Nat → Nat) : Reading :=
  { model := "EMOS-E6016"
    id := f 3 % 256
    channel := f 8 % 256 / 16 % 4 + 1
    battery_ok := f 4 % 256 / 16 != 0
    temp_deci := twos12 ((f 8 % 16) * 256 + f 9 % 256)
    humidity := f 10 % 256
    wind_avg_m_s := f 11 % 256
    dir_raw := f 12 % 256 / 16
    datetime_raw := (f 4 % 16) * 2 ^ 26 + (f 5 % 256) * 2 ^ 18 + (f 6 % 256) * 2 ^ 10 +
      (f 7 % 256) * 2 ^ 2 + f 8 % 256 / 64
    mic := "CHECKSUM" }

/-- A wire row as the sensor sends it: the bitwise complement of a
14-byte logical frame, with one repeat-counter byte appended; 120 bits. -/
def wireRow (frame : List Nat) (rep : Nat) : BitRow :=
  { bits := 120, bytes := frame.map invByte ++ [rep] }

/-! ### Concrete fixtures

The raw capture documented at lines 41–48 of the source (used by several
claims), and smaller fixtures for boundary cases. -/

/-- One wire row of the documented capture, parameterised by its
repeat-counter byte. -/
def exampleRow (rep : Nat) : BitRow :=
  { bits := 120,
    bytes := [0x55, 0x5a, 0x7c, 0x00, 0x6a, 0xa5, 0x60, 0xe7, 0x3f, 0x36, 0xda, 0xff, 0x5d,
      0x38, rep] }

/-- The six-row documented capture: identical rows except for the
repeat-counter bytes `ff fe fd fc fb fa`. -/
def exampleBuffer : Bitbuffer :=
  [exampleRow 0xff, exampleRow 0xfe, exampleRow 0xfd, exampleRow 0xfc, exampleRow 0xfb,
   exampleRow 0xfa]

/-- The reading the decoder extracts from the documented capture. -/
def exampleReading : Reading :=
  { model := "EMOS-E6016", id := 255, channel := 1, battery_ok := true,
    temp_deci := 201, humidity := 37, wind_avg_m_s := 0,
    dir_raw := 10, datetime_raw := 359300195, mic := "CHECKSUM" }

/-- A wire row like the documented capture but with its checksum byte
corrupted (`0x38` replaced by `0x39`), so the checksum check fails. -/
def corruptRow : BitRow :=
  { bits := 120,
    bytes := [0x55, 0x5a, 0x7c, 0x00, 0x6a, 0xa5, 0x60, 0xe7, 0x3f, 0x36, 0xda, 0xff, 0x5d,
      0x39, 0xff] }

/-- Three identical copies of the corrupted row. -/
def corruptBuffer : Bitbuffer := [corruptRow, corruptRow, corruptRow]

/-- A 119-bit row (first 119 bits of the documented capture row). -/
def shortRow : BitRow :=
  { bits := 119,
    bytes := [0x55, 0x5a, 0x7c, 0x00, 0x6a, 0xa5, 0x60, 0xe7, 0x3f, 0x36, 0xda, 0xff, 0x5d,
      0x38, 0xfe] }

/-- Three identical copies of the 119-bit row. -/
def shortBuffer : Bitbuffer := [shortRow, shortRow, shortRow]

/-- A byte function whose 12-bit temperature field holds the
two's-complement pattern for −125 deci-degrees (low nibble `0xf` of
byte 8, byte 9 = `0x83`). -/
def negPattern (i : Nat) : Nat :=
  if i = 8 then 0x0f else if i = 9 then 0x83 else 0

/-- A synthetic logical frame that begins with the wire magic sequence
`55 5a 7c` itself and carries a valid §4.4 checksum byte (0x2b). -/
def magicFrame : List Nat :=
  [0x55, 0x5a, 0x7c, 0, 0, 0, 0, 0, 0, 0, 0, 0, 0, 0x2b]

/-! ### Arithmetic bridges between the C bit operations and the
byte/nibble arithmetic of the spec field table -/

/-- Disjoint bitwise-or is addition: if `m` is a multiple of `2 ^ k` and
`b` fits in `k` bits then `m ||| b = m + b`. -/
theorem lor_eq_add {k : Nat} (m b : Nat) (hm : m % 2 ^ k = 0) (hb : b < 2 ^ k) :
    m ||| b = m + b := by
  obtain ⟨q, rfl⟩ := Nat.dvd_of_mod_eq_zero hm
  exact (Nat.mul_add_lt_is_or hb q).symm

/-- Masking with `0x0f` takes the low nibble. -/
theorem and_15_eq_mod (x : Nat) : x &&& 15 = x % 16 :=
  Nat.and_pow_two_sub_one_eq_mod x 4

/-- Masking with `0x3` takes the value mod 4. -/
theorem and_3_eq_mod (x : Nat) : x &&& 3 = x % 4 :=
  Nat.and_pow_two_sub_one_eq_mod x 2

/-- Bit `4 + j` of `0xf0`. -/
theorem testBit_240 (j : Nat) : Nat.testBit 240 (4 + j) = decide (j < 4) := by
  rcases Nat.lt_or_ge j 4 with h | h
  · interval_cases j <;> decide
  · have h1 : Nat.testBit 240 (4 + j) = false :=
      Nat.testBit_lt_two_pow (lt_of_lt_of_le (by norm_num : (240 : Nat) < 2 ^ 8)
        (Nat.pow_le_pow_right (by norm_num) (by omega)))
    rw [h1, eq_comm, decide_eq_false_iff_not]
    omega

/-- `(x & 0xf0) >> 4` is the high nibble of the low byte. -/
theorem and_240_shiftRight_4 (x : Nat) : (x &&& 240) >>> 4 = x / 16 % 16 := by
  refine Nat.eq_of_testBit_eq fun j => ?_
  rw [Nat.testBit_shiftRight, Nat.testBit_and, testBit_240,
    show (16 : Nat) = 2 ^ 4 from rfl, Nat.testBit_mod_two_pow,
    ← Nat.shiftRight_eq_div_pow, Nat.testBit_shiftRight, Bool.and_comm]

/-- `(x >> 4) & 0x3` reads the channel bit pair. -/
theorem shiftRight_4_and_3 (x : Nat) : (x >>> 4) &&& 3 = x / 16 % 4 := by
  rw [and_3_eq_mod, Nat.shiftRight_eq_div_pow]

/-- `x >> 6` is division by 64. -/
theorem shiftRight_6_eq_div (x : Nat) : x >>> 6 = x / 64 :=
  Nat.shiftRight_eq_div_pow x 6

/-- The C temperature computation — mask the low nibble of byte 8, build
the left-justified 16-bit pattern, cast to `int16_t`, arithmetic-shift
right by 4 — equals the two's-complement value of the 12-bit field. -/
theorem temp_code_eq_twos12 (a b : Nat) (hb : b < 256) :
    sar (int16_of ((a &&& 15) <<< 12 ||| b <<< 4)) 4 = twos12 (a % 16 * 256 + b) := by
  rw [and_15_eq_mod, Nat.shiftLeft_eq, Nat.shiftLeft_eq]
  have ha : a % 16 < 16 := Nat.mod_lt _ (by norm_num)
  have hlor : a % 16 * 2 ^ 12 ||| b * 2 ^ 4 = a % 16 * 2 ^ 12 + b * 2 ^ 4 :=
    lor_eq_add (k := 12) _ _ (Nat.mul_mod_left _ _) (by norm_num; omega)
  rw [hlor]
  have hsum : a % 16 * 2 ^ 12 + b * 2 ^ 4 = 16 * (a % 16 * 256 + b) := by ring
  rw [hsum]
  set v := a % 16 * 256 + b with hv
  have hvlt : v < 4096 := by omega
  unfold int16_of twos12 sar
  rw [Nat.mod_eq_of_lt (show 16 * v < 65536 by omega), Nat.mod_eq_of_lt hvlt,
    show ((2 : Int) ^ 4) = 16 from by norm_num]
  rcases Nat.lt_or_ge v 2048 with h | h
  · rw [if_pos (show 16 * v < 32768 by omega), if_pos h]
    have hc : ((16 * v : Nat) : Int) = 16 * (v : Int) := by push_cast; ring
    rw [hc]
    exact Int.mul_fdiv_cancel_left (a := 16) _ (by norm_num)
  · rw [if_neg (show ¬16 * v < 32768 by omega), if_neg (show ¬v < 2048 by omega)]
    have hc : ((16 * v : Nat) : Int) - 65536 = 16 * ((v : Int) - 4096) := by push_cast; ring
    rw [hc]
    exact Int.mul_fdiv_cancel_left (a := 16) _ (by norm_num)

/-- On byte values below 256, the decoder's bit-twiddling extraction
agrees field-for-field with the spec's declarative layout table (§4.5). -/
theorem extractReading_eq_layoutReading (f : Nat → Nat) (hf : ∀ i, i < 14 → f i < 256) :
    extractReading f = layoutReading f := by
  have h3 := hf 3 (by norm_num)
  have h4 := hf 4 (by norm_num)
  have h5 := hf 5 (by norm_num)
  have h6 := hf 6 (by norm_num)
  have h7 := hf 7 (by norm_num)
  have h8 := hf 8 (by norm_num)
  have h9 := hf 9 (by norm_num)
  have h10 := hf 10 (by norm_num)
  have h11 := hf 11 (by norm_num)
  have h12 := hf 12 (by norm_num)
  simp only [extractReading, layoutReading, Reading.mk.injEq]
  refine ⟨trivial, (Nat.mod_eq_of_lt h3).symm, ?_, ?_, ?_, (Nat.mod_eq_of_lt h10).symm,
    (Nat.mod_eq_of_lt h11).symm, ?_, ?_, trivial⟩
  · rw [shiftRight_4_and_3, Nat.mod_eq_of_lt h8]
  · rw [and_240_shiftRight_4, Nat.mod_eq_of_lt h4,
      Nat.mod_eq_of_lt (show f 4 / 16 < 16 by omega)]
  · rw [temp_code_eq_twos12 _ _ h9, Nat.mod_eq_of_lt h9]
  · rw [and_240_shiftRight_4, Nat.mod_eq_of_lt h12,
      Nat.mod_eq_of_lt (show f 12 / 16 < 16 by omega)]
  · rw [and_15_eq_mod, Nat.shiftLeft_eq, Nat.shiftLeft_eq, Nat.shiftLeft_eq, Nat.shiftLeft_eq,
      shiftRight_6_eq_div, Nat.mod_eq_of_lt h5, Nat.mod_eq_of_lt h6, Nat.mod_eq_of_lt h7,
      Nat.mod_eq_of_lt h8]
    have e1 : f 4 % 16 * 2 ^ 26 ||| f 5 * 2 ^ 18 = f 4 % 16 * 2 ^ 26 + f 5 * 2 ^ 18 :=
      lor_eq_add (k := 26) _ _ (by
        have : f 4 % 16 * 2 ^ 26 = f 4 % 16 * 2 ^ 26 := rfl
        calc f 4 % 16 * 2 ^ 26 % 2 ^ 26 = 0 := Nat.mul_mod_left _ _)
        (by norm_num; omega)
    have e2 : f 4 % 16 * 2 ^ 26 + f 5 * 2 ^ 18 ||| f 6 * 2 ^ 10 =
        f 4 % 16 * 2 ^ 26 + f 5 * 2 ^ 18 + f 6 * 2 ^ 10 :=
      lor_eq_add (k := 18) _ _ (by
        have hr : f 4 % 16 * 2 ^ 26 + f 5 * 2 ^ 18 = (f 4 % 16 * 2 ^ 8 + f 5) * 2 ^ 18 := by ring
        rw [hr]; exact Nat.mul_mod_left _ _) (by norm_num; omega)
    have e3 : f 4 % 16 * 2 ^ 26 + f 5 * 2 ^ 18 + f 6 * 2 ^ 10 ||| f 7 * 2 ^ 2 =
        f 4 % 16 * 2 ^ 26 + f 5 * 2 ^ 18 + f 6 * 2 ^ 10 + f 7 * 2 ^ 2 :=
      lor_eq_add (k := 10) _ _ (by
        have hr : f 4 % 16 * 2 ^ 26 + f 5 * 2 ^ 18 + f 6 * 2 ^ 10 =
            (f 4 % 16 * 2 ^ 16 + f 5 * 2 ^ 8 + f 6) * 2 ^ 10 := by ring
        rw [hr]; exact Nat.mul_mod_left _ _) (by norm_num; omega)
    have e4 : f 4 % 16 * 2 ^ 26 + f 5 * 2 ^ 18 + f 6 * 2 ^ 10 + f 7 * 2 ^ 2 ||| f 8 / 64 =
        f 4 % 16 * 2 ^ 26 + f 5 * 2 ^ 18 + f 6 * 2 ^ 10 + f 7 * 2 ^ 2 + f 8 / 64 :=
      lor_eq_add (k := 2) _ _ (by
        have hr : f 4 % 16 * 2 ^ 26 + f 5 * 2 ^ 18 + f 6 * 2 ^ 10 + f 7 * 2 ^ 2 =
            (f 4 % 16 * 2 ^ 24 + f 5 * 2 ^ 16 + f 6 * 2 ^ 8 + f 7) * 2 ^ 2 := by ring
        rw [hr]; exact Nat.mul_mod_left _ _) (by norm_num; omega)
    rw [e1, e2, e3, e4]

/-! ### Control-flow lemmas for the decoder -/

/-- If no row has a quorum of `minRepeats` matches, the row search fails. -/
theorem find_repeated_row_eq_none (rows : Bitbuffer) (minRepeats minBits : Nat)
    (h : ∀ i, i < rows.length → countMatches rows i minBits < minRepeats) :
    bitbuffer_find_repeated_row rows minRepeats minBits = none := by
  unfold bitbuffer_find_repeated_row
  rw [List.find?_eq_none]
  intro i hi
  simpa using Nat.not_le.mpr (h i (List.mem_range.mp hi))

/-- A successful row search returns an in-range index with a quorum. -/
theorem find_repeated_row_some (rows : Bitbuffer) (minRepeats minBits r : Nat)
    (h : bitbuffer_find_repeated_row rows minRepeats minBits = some r) :
    r < rows.length ∧ minRepeats ≤ countMatches rows r minBits := by
  unfold bitbuffer_find_repeated_row at h
  refine ⟨List.mem_range.mp (List.mem_of_find?_eq_some h), ?_⟩
  simpa using List.find?_some h

/-- When the row search fails the decode aborts with the buffer intact. -/
theorem decode_eq_of_find_none (bb : Bitbuffer)
    (h : bitbuffer_find_repeated_row bb 3 (120 - 8) = none) :
    emos_e6016_decode bb = (DecodeResult.abortEarly, bb) := by
  unfold emos_e6016_decode
  rw [h]

/-- When the row search succeeds the decode continues with that row. -/
theorem decode_eq_of_find_some (bb : Bitbuffer) (r : Nat)
    (h : bitbuffer_find_repeated_row bb 3 (120 - 8) = some r) :
    emos_e6016_decode bb = decodeRow bb r := by
  unfold emos_e6016_decode
  rw [h]

/-- Once the length and signature checks pass, `decodeRow` is the
checksum comparison on the inverted buffer. -/
theorem decodeRow_eq_of_checks (bb : Bitbuffer) (r : Nat)
    (hbits : (bb.getD r default).bits = 120)
    (h0 : byteVal (bb.getD r default) 0 = 0x55)
    (h1 : byteVal (bb.getD r default) 1 = 0x5a)
    (h2 : byteVal (bb.getD r default) 2 = 0x7c) :
    decodeRow bb r =
      if add_bytes ((bitbuffer_invert bb).getD r default) 13 % 256 ≠
          byteVal ((bitbuffer_invert bb).getD r default) 13 then
        (DecodeResult.failMic, bitbuffer_invert bb)
      else
        (DecodeResult.ok (extractReading (byteVal ((bitbuffer_invert bb).getD r default))),
          bitbuffer_invert bb) := by
  simp only [List.getD_eq_getElem?_getD] at hbits h0 h1 h2
  simp only [decodeRow, List.getD_eq_getElem?_getD]
  rw [if_neg (by simp [hbits]), if_neg (by simp [h0, h1, h2])]

/-- Index-wise description of `bitbuffer_invert`: the row at every index
is the inversion of the corresponding input row. -/
theorem bitbuffer_invert_getD (bb : Bitbuffer) (i : Nat) :
    (bitbuffer_invert bb).getD i default = invertRow (bb.getD i default) := by
  unfold bitbuffer_invert
  rcases h : bb[i]? with _ | row
  · simp [h, invertRow]
    rfl
  · simp [h]

/-- A row of the wrong bit length aborts `decodeRow` with the buffer
intact. -/
theorem decodeRow_eq_of_bad_length (bb : Bitbuffer) (r : Nat)
    (hbits : (bb.getD r default).bits ≠ 120) :
    decodeRow bb r = (DecodeResult.abortLength, bb) := by
  simp only [List.getD_eq_getElem?_getD] at hbits
  simp only [decodeRow, List.getD_eq_getElem?_getD]
  rw [if_pos hbits]

/-- A row failing the magic-byte check aborts `decodeRow` with the
buffer intact. -/
theorem decodeRow_eq_of_bad_sig (bb : Bitbuffer) (r : Nat)
    (hbits : (bb.getD r default).bits = 120)
    (hsig : byteVal (bb.getD r default) 0 ≠ 0x55 ∨ byteVal (bb.getD r default) 1 ≠ 0x5a ∨
      byteVal (bb.getD r default) 2 ≠ 0x7c) :
    decodeRow bb r = (DecodeResult.abortEarly, bb) := by
  simp only [List.getD_eq_getElem?_getD] at hbits hsig
  simp only [decodeRow, List.getD_eq_getElem?_getD]
  rw [if_neg (by simp [hbits]), if_pos hsig]

/-! ### The claims -/

/-- **C1.**  For every representative 120-bit frame that has passed the
length and signature checks and been bit-inverted, the decoder compares
the mod-256 sum of the first 13 bytes of the inverted frame against byte
index 13: on mismatch the decode produces no reading (checksum failure,
`DECODE_FAIL_MIC`); on match extraction proceeds and the reading is
tagged checksum-verified (`mic = "CHECKSUM"`). -/
theorem claim_c1_checksum_gate (bb : Bitbuffer) (r : Nat)
    (hfind : bitbuffer_find_repeated_row bb 3 (120 - 8) = some r)
    (hbits : (bb.getD r default).bits = 120)
    (h0 : byteVal (bb.getD r default) 0 = 0x55)
    (h1 : byteVal (bb.getD r default) 1 = 0x5a)
    (h2 : byteVal (bb.getD r default) 2 = 0x7c) :
    (add_bytes ((bitbuffer_invert bb).getD r default) 13 % 256 ≠
        byteVal ((bitbuffer_invert bb).getD r default) 13 →
      emos_e6016_decode bb = (DecodeResult.failMic, bitbuffer_invert bb)) ∧
    (add_bytes ((bitbuffer_invert bb).getD r default) 13 % 256 =
        byteVal ((bitbuffer_invert bb).getD r default) 13 →
      emos_e6016_decode bb =
        (DecodeResult.ok (extractReading (byteVal ((bitbuffer_invert bb).getD r default))),
          bitbuffer_invert bb) ∧
      (extractReading (byteVal ((bitbuffer_invert bb).getD r default))).mic = "CHECKSUM") := by
  rw [decode_eq_of_find_some bb r hfind, decodeRow_eq_of_checks bb r hbits h0 h1 h2]
  constructor
  · intro h
    rw [if_pos h]
  · intro h
    rw [if_neg (fun hn => hn h)]
    exact ⟨rfl, rfl⟩

/-- Witness for C1 at the documented six-row capture: the checksum
matches, so the decode emits the checksum-verified reading. -/
theorem claim_c1_witness :
    emos_e6016_decode exampleBuffer =
      (DecodeResult.ok
          (extractReading (byteVal ((bitbuffer_invert exampleBuffer).getD 0 default))),
        bitbuffer_invert exampleBuffer) ∧
    (extractReading (byteVal ((bitbuffer_invert exampleBuffer).getD 0 default))).mic =
      "CHECKSUM" :=
  (claim_c1_checksum_gate exampleBuffer 0 (by decide) (by decide) (by decide) (by decide)
    (by decide)).2 (by decide)

/-- **C2.**  If no row of the transmission agrees with at least 3 rows
on the first `total_bits - 8 = 112` bits, the decode aborts early with
the buffer untouched — before validation, inversion, checksum, or field
extraction; if such a quorum exists, the row search selects the index of
a representative row of such a group. -/
theorem claim_c2_consensus_gate (bb : Bitbuffer) :
    ((∀ i, i < bb.length → countMatches bb i (120 - 8) < 3) →
      emos_e6016_decode bb = (DecodeResult.abortEarly, bb)) ∧
    ((∃ i, i < bb.length ∧ 3 ≤ countMatches bb i (120 - 8)) →
      ∃ r, bitbuffer_find_repeated_row bb 3 (120 - 8) = some r ∧
        3 ≤ countMatches bb r (120 - 8)) := by
  constructor
  · intro h
    exact decode_eq_of_find_none bb (find_repeated_row_eq_none bb 3 (120 - 8) h)
  · rintro ⟨i, hi, hc⟩
    rcases hf : bitbuffer_find_repeated_row bb 3 (120 - 8) with _ | r
    · exfalso
      unfold bitbuffer_find_repeated_row at hf
      rw [List.find?_eq_none] at hf
      exact absurd (by simpa using hc) (by simpa using hf i (List.mem_range.mpr hi))
    · exact ⟨r, rfl, (find_repeated_row_some bb 3 (120 - 8) r hf).2⟩

/-- Witness for C2: a transmission with a single row has no quorum of 3,
and the decode aborts early with the buffer untouched. -/
theorem claim_c2_witness :
    emos_e6016_decode [exampleRow 0xff] = (DecodeResult.abortEarly, [exampleRow 0xff]) :=
  (claim_c2_consensus_gate [exampleRow 0xff]).1 (by decide)

/-- **C8.**  Decoding is deterministic: decode invocations on equal
transmissions produce identical outcomes (the embedded decode is a pure
function of the bitbuffer contents). -/
theorem claim_c8_deterministic (bb1 bb2 : Bitbuffer) (h : bb1 = bb2) :
    emos_e6016_decode bb1 = emos_e6016_decode bb2 := by
  rw [h]

/-- Witness for C8 at the documented capture. -/
theorem claim_c8_witness :
    emos_e6016_decode exampleBuffer = emos_e6016_decode exampleBuffer :=
  claim_c8_deterministic exampleBuffer exampleBuffer rfl

/-- **C3.**  Inversion is applied exactly once and in a fixed position:
on every decode path either the buffer is returned untouched and no
reading is produced (the early aborts), or the returned buffer is the
single inversion `bitbuffer_invert bb` of the input, the length check
and the magic-byte check `55 5a 7c` have passed on the *un-inverted*
wire bytes of the representative row, and the outcome is the checksum
verdict or a reading extracted from the inverted bytes — never an
inversion before validation, never a double inversion. -/
theorem claim_c3_invert_once_after_validation (bb : Bitbuffer) :
    ((emos_e6016_decode bb).2 = bb ∧
      ((emos_e6016_decode bb).1 = DecodeResult.abortEarly ∨
        (emos_e6016_decode bb).1 = DecodeResult.abortLength)) ∨
    ((emos_e6016_decode bb).2 = bitbuffer_invert bb ∧
      ∃ r, bitbuffer_find_repeated_row bb 3 (120 - 8) = some r ∧
        (bb.getD r default).bits = 120 ∧
        byteVal (bb.getD r default) 0 = 0x55 ∧
        byteVal (bb.getD r default) 1 = 0x5a ∧
        byteVal (bb.getD r default) 2 = 0x7c ∧
        ((emos_e6016_decode bb).1 = DecodeResult.failMic ∨
          (emos_e6016_decode bb).1 =
            DecodeResult.ok
              (extractReading (byteVal ((bitbuffer_invert bb).getD r default))))) := by
  rcases hf : bitbuffer_find_repeated_row bb 3 (120 - 8) with _ | r
  · left
    rw [decode_eq_of_find_none bb hf]
    exact ⟨rfl, Or.inl rfl⟩
  · rw [decode_eq_of_find_some bb r hf]
    by_cases hbits : (bb.getD r default).bits = 120
    · by_cases hsig : byteVal (bb.getD r default) 0 = 0x55 ∧
        byteVal (bb.getD r default) 1 = 0x5a ∧ byteVal (bb.getD r default) 2 = 0x7c
      · obtain ⟨h0, h1, h2⟩ := hsig
        rw [decodeRow_eq_of_checks bb r hbits h0 h1 h2]
        right
        by_cases hchk : add_bytes ((bitbuffer_invert bb).getD r default) 13 % 256 ≠
            byteVal ((bitbuffer_invert bb).getD r default) 13
        · rw [if_pos hchk]
          exact ⟨rfl, r, rfl, hbits, h0, h1, h2, Or.inl rfl⟩
        · rw [if_neg hchk]
          exact ⟨rfl, r, rfl, hbits, h0, h1, h2, Or.inr rfl⟩
      · left
        rw [decodeRow_eq_of_bad_sig bb r hbits (by tauto)]
        exact ⟨rfl, Or.inl rfl⟩
    · left
      rw [decodeRow_eq_of_bad_length bb r hbits]
      exact ⟨rfl, Or.inr rfl⟩

/-- **C9.**  Once the representative row passes the length and signature
checks, the decoder inverts every row of the caller's bitbuffer in
place; if the checksum check then fails, the decode returns no reading
(`DECODE_FAIL_MIC`) but the returned buffer is the fully inverted one —
every index holds the inversion of its input row, and the buffer
genuinely differs from the input (the failure is not atomic). -/
theorem claim_c9_checksum_fail_leaves_buffer_inverted (bb : Bitbuffer) (r : Nat)
    (hfind : bitbuffer_find_repeated_row bb 3 (120 - 8) = some r)
    (hbits : (bb.getD r default).bits = 120)
    (h0 : byteVal (bb.getD r default) 0 = 0x55)
    (h1 : byteVal (bb.getD r default) 1 = 0x5a)
    (h2 : byteVal (bb.getD r default) 2 = 0x7c)
    (hchk : add_bytes ((bitbuffer_invert bb).getD r default) 13 % 256 ≠
      byteVal ((bitbuffer_invert bb).getD r default) 13) :
    emos_e6016_decode bb = (DecodeResult.failMic, bitbuffer_invert bb) ∧
    (∀ i, (bitbuffer_invert bb).getD i default = invertRow (bb.getD i default)) ∧
    bitbuffer_invert bb ≠ bb := by
  refine ⟨?_, bitbuffer_invert_getD bb, ?_⟩
  · rw [decode_eq_of_find_some bb r hfind, decodeRow_eq_of_checks bb r hbits h0 h1 h2,
      if_pos hchk]
  · intro heq
    have hrow : invertRow (bb.getD r default) = bb.getD r default := by
      rw [← bitbuffer_invert_getD bb r, heq]
    have hbytes : (bb.getD r default).bytes.map invByte = (bb.getD r default).bytes :=
      congrArg BitRow.bytes hrow
    unfold byteVal at h0
    rcases hb : (bb.getD r default).bytes with _ | ⟨x, t⟩
    · rw [hb] at h0
      simp at h0
    · rw [hb] at hbytes h0
      have hx : invByte x = x := by
        have := congrArg (fun l => l.getD 0 0) hbytes
        simpa using this
      unfold invByte at hx
      simp at h0
      omega

/-- **C10.**  Every reading the decoder emits has its channel in the
range 1..4: the channel is a 2-bit field plus 1, so channel 0 never
appears. -/
theorem claim_c10_channel_range (bb : Bitbuffer) (rd : Reading) (out : Bitbuffer)
    (h : emos_e6016_decode bb = (DecodeResult.ok rd, out)) :
    1 ≤ rd.channel ∧ rd.channel ≤ 4 := by
  rcases hf : bitbuffer_find_repeated_row bb 3 (120 - 8) with _ | r
  · rw [decode_eq_of_find_none bb hf] at h
    simp at h
  · rw [decode_eq_of_find_some bb r hf] at h
    by_cases hbits : (bb.getD r default).bits = 120
    · by_cases hsig : byteVal (bb.getD r default) 0 = 0x55 ∧
        byteVal (bb.getD r default) 1 = 0x5a ∧ byteVal (bb.getD r default) 2 = 0x7c
      · obtain ⟨h0, h1, h2⟩ := hsig
        rw [decodeRow_eq_of_checks bb r hbits h0 h1 h2] at h
        by_cases hchk : add_bytes ((bitbuffer_invert bb).getD r default) 13 % 256 ≠
            byteVal ((bitbuffer_invert bb).getD r default) 13
        · rw [if_pos hchk] at h
          simp at h
        · rw [if_neg hchk] at h
          rw [Prod.mk.injEq] at h
          obtain ⟨hfst, -⟩ := h
          injection hfst with hrd
          rw [← hrd]
          simp only [extractReading]
          refine ⟨Nat.le_add_left 1 _, ?_⟩
          have hand : byteVal ((bitbuffer_invert bb).getD r default) 8 >>> 4 &&& 3 ≤ 3 :=
            Nat.and_le_right
          omega
      · rw [decodeRow_eq_of_bad_sig bb r hbits (by tauto)] at h
        simp at h
    · rw [decodeRow_eq_of_bad_length bb r hbits] at h
      simp at h

/-- Witness for C10 at the documented capture: the emitted channel is 1,
inside the range. -/
theorem claim_c10_witness :
    1 ≤ exampleReading.channel ∧ exampleReading.channel ≤ 4 :=
  claim_c10_channel_range exampleBuffer exampleReading (bitbuffer_invert exampleBuffer)
    (by decide)

/-- Witness for C9: three copies of a row with a corrupted checksum
byte pass consensus, length and signature; the decode fails the checksum
but returns the buffer fully inverted, different from the input. -/
theorem claim_c9_witness :
    emos_e6016_decode corruptBuffer = (DecodeResult.failMic, bitbuffer_invert corruptBuffer) ∧
    bitbuffer_invert corruptBuffer ≠ corruptBuffer :=
  ⟨(claim_c9_checksum_fail_leaves_buffer_inverted corruptBuffer 0 (by decide) (by decide)
      (by decide) (by decide) (by decide) (by decide)).1,
    (claim_c9_checksum_fail_leaves_buffer_inverted corruptBuffer 0 (by decide) (by decide)
      (by decide) (by decide) (by decide) (by decide)).2.2⟩

/-- **C7 counterexample.**  A transmission consisting of one 119-bit row
(`shortRow`) is rejected, but with the early consensus abort
(`DECODE_ABORT_EARLY`), not the length-mismatch failure
(`DECODE_ABORT_LENGTH`) the claim requires for every transmission of
119- or 121-bit rows. -/
theorem claim_c7_counterexample :
    emos_e6016_decode [shortRow] = (DecodeResult.abortEarly, [shortRow]) ∧
    emos_e6016_decode [shortRow] ≠ (DecodeResult.abortLength, [shortRow]) := by
  decide

/-- **C7 (amended).**  Every transmission whose rows all have 119 or 121
bits produces no reading and is never passed to the inversion, checksum,
or extraction stages (the buffer comes back untouched); when a
representative row is actually selected, the failure is specifically the
length-mismatch abort. -/
theorem claim_c7_length_reject (bb : Bitbuffer)
    (hall : ∀ row ∈ bb, row.bits = 119 ∨ row.bits = 121) :
    (emos_e6016_decode bb).2 = bb ∧
    (∀ rd, (emos_e6016_decode bb).1 ≠ DecodeResult.ok rd) ∧
    (emos_e6016_decode bb).1 ≠ DecodeResult.failMic ∧
    (∀ r, bitbuffer_find_repeated_row bb 3 (120 - 8) = some r →
      emos_e6016_decode bb = (DecodeResult.abortLength, bb)) := by
  rcases hf : bitbuffer_find_repeated_row bb 3 (120 - 8) with _ | r
  · rw [decode_eq_of_find_none bb hf]
    exact ⟨rfl, fun rd => by simp, by simp, fun r hr => by simp at hr⟩
  · have hr := (find_repeated_row_some bb 3 (120 - 8) r hf).1
    have hmem : bb.getD r default ∈ bb := by
      rw [List.getD_eq_getElem bb default hr]
      exact List.getElem_mem hr
    have hbits : (bb.getD r default).bits ≠ 120 := by
      rcases hall _ hmem with h | h <;> omega
    rw [decode_eq_of_find_some bb r hf, decodeRow_eq_of_bad_length bb r hbits]
    exact ⟨rfl, fun rd => by simp, by simp, fun r2 hr2 => rfl⟩

/-- Witness for C7: three identical 119-bit rows reach the length check
and are rejected with the length-mismatch abort. -/
theorem claim_c7_witness :
    emos_e6016_decode shortBuffer = (DecodeResult.abortLength, shortBuffer) :=
  (claim_c7_length_reject shortBuffer (by decide)).2.2.2 0 (by decide)

/-- **C4.**  The 12-bit temperature field (low nibble of inverted byte
8, then inverted byte 9) is interpreted as two's complement: the decoder
left-justifies it in a 16-bit signed integer and arithmetic-shifts right
by 4, so the decoded deci-degree value is exactly the two's-complement
value of the field, the emitted temperature is that value scaled by 0.1,
and it always lies in −2048..2047 — never a large positive alias. -/
theorem claim_c4_temperature_sign_extension (f : Nat → Nat) (h9 : f 9 < 256) :
    (extractReading f).temp_deci = twos12 (f 8 % 16 * 256 + f 9) ∧
    (extractReading f).temperature_C = (twos12 (f 8 % 16 * 256 + f 9) : Rat) / 10 ∧
    -2048 ≤ (extractReading f).temp_deci ∧ (extractReading f).temp_deci < 2048 := by
  have h : (extractReading f).temp_deci = twos12 (f 8 % 16 * 256 + f 9) := by
    simp only [extractReading]
    exact temp_code_eq_twos12 (f 8) (f 9) h9
  refine ⟨h, ?_, ?_, ?_⟩
  · rw [Reading.temperature_C, h, show (0.1 : Rat) = 1 / 10 from by norm_num]
    ring
  · rw [h]
    unfold twos12
    split <;> omega
  · rw [h]
    unfold twos12
    split <;> omega

/-- Witness for C4: the pattern whose two's-complement value is −125
decodes to −12.5 °C, not a large positive alias. -/
theorem claim_c4_witness :
    (extractReading negPattern).temp_deci = -125 ∧
    (extractReading negPattern).temperature_C = -25 / 2 := by
  have h := claim_c4_temperature_sign_extension negPattern (by norm_num [negPattern])
  have h1 : twos12 (negPattern 8 % 16 * 256 + negPattern 9) = -125 := by decide
  refine ⟨?_, ?_⟩
  · rw [h.1, h1]
  · rw [h.2.1, h1]
    norm_num

/-- **C5 counterexample.**  At the claim's own transmission — the six
documented rows — the decode succeeds, but the reading contradicts the
claimed values: id is 255 (not 0), battery_ok is true (not false),
humidity is 37 (not 0x37 = 55), and wind speed is 0 m/s (not
0xda = 218); the claim read the un-inverted wire bytes.  The wire
checksum byte 0x38 also fails to match the mod-256 sum of the first 13
wire bytes (the checksum relation only holds on the inverted frame). -/
theorem claim_c5_counterexample :
    emos_e6016_decode exampleBuffer =
      (DecodeResult.ok exampleReading, bitbuffer_invert exampleBuffer) ∧
    exampleReading.id ≠ 0 ∧
    exampleReading.battery_ok ≠ false ∧
    exampleReading.humidity ≠ 55 ∧
    exampleReading.wind_avg_m_s ≠ 218 ∧
    add_bytes (exampleRow 0xff) 13 % 256 ≠ byteVal (exampleRow 0xff) 13 := by
  decide

/-- **C5 (amended).**  For the documented six-row transmission the
decode succeeds and produces a reading with id = 255, channel = 1,
battery_ok = true, humidity = 37 and wind speed 0 m/s — the field values
of the inverted frame — and the checksum byte at offset 13 of the
inverted frame (0xc7) equals the mod-256 sum of its first 13 bytes. -/
theorem claim_c5_example_decode :
    emos_e6016_decode exampleBuffer =
      (DecodeResult.ok exampleReading, bitbuffer_invert exampleBuffer) ∧
    exampleReading.id = 255 ∧ exampleReading.channel = 1 ∧
    exampleReading.battery_ok = true ∧ exampleReading.humidity = 37 ∧
    exampleReading.wind_avg_m_s = 0 ∧
    add_bytes ((bitbuffer_invert exampleBuffer).getD 0 default) 13 % 256 =
      byteVal ((bitbuffer_invert exampleBuffer).getD 0 default) 13 := by
  decide

/-! ### Round-trip machinery for C6 -/

/-- A byte read from a row is always below 256. -/
theorem byteVal_lt (r : BitRow) (i : Nat) : byteVal r i < 256 :=
  Nat.mod_lt _ (by norm_num)

/-- Inverting a byte value twice gives it back. -/
theorem invByte_invByte {x : Nat} (h : x < 256) : invByte (invByte x) = x := by
  unfold invByte
  omega

/-- The head of a nonempty replicated list. -/
theorem replicate_getD_zero (k : Nat) (row : BitRow) :
    (List.replicate (k + 1) row).getD 0 default = row := by
  rw [List.replicate_succ]
  rfl

/-- On a buffer of at least three identical rows of at least 112 bits,
the row search succeeds at index 0. -/
theorem find_repeated_row_replicate (row : BitRow) (m : Nat) (h112 : 120 - 8 ≤ row.bits) :
    bitbuffer_find_repeated_row (List.replicate (m + 3) row) 3 (120 - 8) = some 0 := by
  have hmatch : rowsMatch ((List.replicate (m + 3) row).getD 0 default) row (120 - 8) = true := by
    rw [show m + 3 = (m + 2) + 1 from rfl, replicate_getD_zero]
    simp [rowsMatch, h112]
  have hcount : countMatches (List.replicate (m + 3) row) 0 (120 - 8) = m + 3 := by
    unfold countMatches
    rw [List.filter_replicate, if_pos hmatch, List.length_replicate]
  unfold bitbuffer_find_repeated_row
  rw [List.length_replicate, List.range_succ_eq_map, List.find?_cons_of_pos]
  simp [hcount]

/-- Inverting a wire row built from an in-range logical frame recovers
the frame (with the repeat byte inverted). -/
theorem invertRow_wireRow (frame : List Nat) (rep : Nat) (hf : ∀ x ∈ frame, x < 256) :
    invertRow (wireRow frame rep) = { bits := 120, bytes := frame ++ [invByte rep] } := by
  have hcomp : ∀ x ∈ frame, (invByte ∘ invByte) x = id x := fun x hx =>
    invByte_invByte (hf x hx)
  unfold invertRow wireRow
  simp only [List.map_append, List.map_map, List.map_cons, List.map_nil]
  congr 1
  rw [List.map_congr_left hcomp, List.map_id]

/-- `layoutReading` only looks at bytes 3 through 12. -/
theorem layoutReading_congr (f g : Nat → Nat) (h : ∀ i, 3 ≤ i → i ≤ 12 → f i = g i) :
    layoutReading f = layoutReading g := by
  unfold layoutReading
  rw [h 3 (by norm_num) (by norm_num), h 4 (by norm_num) (by norm_num),
    h 5 (by norm_num) (by norm_num), h 6 (by norm_num) (by norm_num),
    h 7 (by norm_num) (by norm_num), h 8 (by norm_num) (by norm_num),
    h 9 (by norm_num) (by norm_num), h 10 (by norm_num) (by norm_num),
    h 11 (by norm_num) (by norm_num), h 12 (by norm_num) (by norm_num)]

/-- **C6 counterexample.**  A 14-byte frame whose first three bytes are
the magic sequence `55 5a 7c` and whose byte 13 is the mod-256 sum of
its first 13 bytes does *not* round-trip: inverting it to wire rows
turns the leading bytes into `aa a5 83`, the signature check on the wire
bytes fails, and the decode aborts with no reading.  (The frame that
round-trips must instead begin with the *complement* of the magic.) -/
theorem claim_c6_counterexample :
    magicFrame.getD 0 0 = 0x55 ∧ magicFrame.getD 1 0 = 0x5a ∧ magicFrame.getD 2 0 = 0x7c ∧
    ((List.range 13).map (fun i => magicFrame.getD i 0)).sum % 256 = magicFrame.getD 13 0 ∧
    emos_e6016_decode (List.replicate 3 (wireRow magicFrame 0)) =
      (DecodeResult.abortEarly, List.replicate 3 (wireRow magicFrame 0)) := by
  decide

/-- **C6 (amended).**  Round-trip: for every 14-byte logical frame whose
first three bytes are the bitwise complement `aa a5 83` of the wire
magic and whose byte 13 is the mod-256 sum of its first 13 bytes,
building 120-bit wire rows by inverting the frame and appending a repeat
byte, repeating the row at least 3 times, and decoding yields exactly
the reading defined by the spec's §4.5 field layout on the original
frame. -/
theorem claim_c6_roundtrip (b3 b4 b5 b6 b7 b8 b9 b10 b11 b12 b13 rep n : Nat)
    (hlt : b3 < 256 ∧ b4 < 256 ∧ b5 < 256 ∧ b6 < 256 ∧ b7 < 256 ∧ b8 < 256 ∧ b9 < 256 ∧
      b10 < 256 ∧ b11 < 256 ∧ b12 < 256 ∧ b13 < 256)
    (hchk : (0xaa + 0xa5 + 0x83 + b3 + b4 + b5 + b6 + b7 + b8 + b9 + b10 + b11 + b12) % 256 =
      b13)
    (hn : 3 ≤ n) :
    emos_e6016_decode (List.replicate n
        (wireRow [0xaa, 0xa5, 0x83, b3, b4, b5, b6, b7, b8, b9, b10, b11, b12, b13] rep)) =
      (DecodeResult.ok
          (layoutReading (fun i =>
            [0xaa, 0xa5, 0x83, b3, b4, b5, b6, b7, b8, b9, b10, b11, b12, b13].getD i 0)),
        bitbuffer_invert (List.replicate n
          (wireRow [0xaa, 0xa5, 0x83, b3, b4, b5, b6, b7, b8, b9, b10, b11, b12, b13] rep))) := by
  obtain ⟨m, rfl⟩ : ∃ m, n = m + 3 := ⟨n - 3, by omega⟩
  obtain ⟨l3, l4, l5, l6, l7, l8, l9, l10, l11, l12, l13⟩ := hlt
  have hget : (List.replicate (m + 3)
        (wireRow [0xaa, 0xa5, 0x83, b3, b4, b5, b6, b7, b8, b9, b10, b11, b12, b13] rep)).getD
        0 default =
      wireRow [0xaa, 0xa5, 0x83, b3, b4, b5, b6, b7, b8, b9, b10, b11, b12, b13] rep :=
    replicate_getD_zero _ _
  have hfind := find_repeated_row_replicate
    (wireRow [0xaa, 0xa5, 0x83, b3, b4, b5, b6, b7, b8, b9, b10, b11, b12, b13] rep) m
    (by norm_num [wireRow])
  have hframe : ∀ x ∈ [0xaa, 0xa5, 0x83, b3, b4, b5, b6, b7, b8, b9, b10, b11, b12, b13],
      x < 256 := by
    intro x hx
    simp only [List.mem_cons, List.not_mem_nil, or_false] at hx
    rcases hx with rfl | rfl | rfl | rfl | rfl | rfl | rfl | rfl | rfl | rfl | rfl | rfl |
      rfl | rfl <;> omega
  have hinv : (bitbuffer_invert (List.replicate (m + 3)
        (wireRow [0xaa, 0xa5, 0x83, b3, b4, b5, b6, b7, b8, b9, b10, b11, b12, b13] rep))).getD
        0 default =
      BitRow.mk 120
        ([0xaa, 0xa5, 0x83, b3, b4, b5, b6, b7, b8, b9, b10, b11, b12, b13] ++
          [invByte rep]) := by
    rw [bitbuffer_invert_getD, hget, invertRow_wireRow _ _ hframe]
  rw [decode_eq_of_find_some _ 0 hfind,
    decodeRow_eq_of_checks _ 0 (by rw [hget]; rfl) (by rw [hget]; rfl) (by rw [hget]; rfl)
      (by rw [hget]; rfl),
    hinv]
  have hsum : add_bytes
      (BitRow.mk 120
        ([0xaa, 0xa5, 0x83, b3, b4, b5, b6, b7, b8, b9, b10, b11, b12, b13] ++
          [invByte rep])) 13 =
      170 % 256 + (165 % 256 + (131 % 256 + (b3 % 256 + (b4 % 256 + (b5 % 256 + (b6 % 256 +
        (b7 % 256 + (b8 % 256 + (b9 % 256 + (b10 % 256 + (b11 % 256 + (b12 % 256 + 0)))))))))))) :=
    rfl
  have hb13 : byteVal
      (BitRow.mk 120
        ([0xaa, 0xa5, 0x83, b3, b4, b5, b6, b7, b8, b9, b10, b11, b12, b13] ++
          [invByte rep])) 13 = b13 % 256 := rfl
  have hchk2 : ¬(add_bytes
      (BitRow.mk 120
        ([0xaa, 0xa5, 0x83, b3, b4, b5, b6, b7, b8, b9, b10, b11, b12, b13] ++
          [invByte rep])) 13 % 256 ≠
      byteVal
      (BitRow.mk 120
        ([0xaa, 0xa5, 0x83, b3, b4, b5, b6, b7, b8, b9, b10, b11, b12, b13] ++
          [invByte rep])) 13) := by
    rw [hsum, hb13]
    omega
  rw [if_neg hchk2]
  have hext := extractReading_eq_layoutReading
    (byteVal (BitRow.mk 120
      ([0xaa, 0xa5, 0x83, b3, b4, b5, b6, b7, b8, b9, b10, b11, b12, b13] ++
        [invByte rep])))
    (fun i _ => byteVal_lt _ i)
  rw [hext, layoutReading_congr _ _ ?_]
  intro i h3i hi12
  interval_cases i
  · exact Nat.mod_eq_of_lt l3
  · exact Nat.mod_eq_of_lt l4
  · exact Nat.mod_eq_of_lt l5
  · exact Nat.mod_eq_of_lt l6
  · exact Nat.mod_eq_of_lt l7
  · exact Nat.mod_eq_of_lt l8
  · exact Nat.mod_eq_of_lt l9
  · exact Nat.mod_eq_of_lt l10
  · exact Nat.mod_eq_of_lt l11
  · exact Nat.mod_eq_of_lt l12

/-- Witness for C6 at a concrete synthetic frame: logical bytes
`aa a5 83 01 9c 00 00 00 15 7e 37 05 a0` with checksum byte 0xde,
repeated three times on the wire with repeat byte 7. -/
theorem claim_c6_witness :
    emos_e6016_decode (List.replicate 3
        (wireRow [0xaa, 0xa5, 0x83, 0x01, 0x9c, 0, 0, 0, 0x15, 0x7e, 0x37, 0x05, 0xa0, 0xde]
          7)) =
      (DecodeResult.ok
          (layoutReading (fun i =>
            [0xaa, 0xa5, 0x83, 0x01, 0x9c, 0, 0, 0, 0x15, 0x7e, 0x37, 0x05, 0xa0,
              0xde].getD i 0)),
        bitbuffer_invert (List.replicate 3
          (wireRow [0xaa, 0xa5, 0x83, 0x01, 0x9c, 0, 0, 0, 0x15, 0x7e, 0x37, 0x05, 0xa0, 0xde]
            7))) :=
  claim_c6_roundtrip 0x01 0x9c 0 0 0 0x15 0x7e 0x37 0x05 0xa0 0xde 7 3 (by decide) (by decide)
    (by decide)

end EmosE6016
